import Mathlib

/-!
Verification of the ssh_gui repository (src/ssh_gui.py and
src/src/remote_file_browser.py) against its natural-language specification.

The Python source is shallowly embedded: pure fragments become Lean
functions over `List Char` / `String`, Python integers become `ℤ`/`ℕ`,
Python exceptions become `Except String`, and the observable effects of the
stateful fragments (tree-widget mutation, progress-bar updates, navigation
state) become explicit state values and state traces.  Python binary64
floating point, where the spec claims depend on it, is modelled exactly as
round-to-nearest-ties-to-even dyadic rationals (an integer mantissa times a
power of two); where the claims are insensitive to rounding the exact
rational value is used instead, with a comment at the definition.
-/

set_option maxRecDepth 16384

namespace SshGui

/-! ### Basic character/string utilities shared by the embedded functions -/

/-- ASCII decimal digit test.  Models the character class matched by the
regular-expression token for a digit in the Python source; rsync and ls
output is ASCII, so the Unicode digits Python would also accept never
occur. -/
def isDigitChar (c : Char) : Bool := '0' ≤ c && c ≤ '9'

/-- Numeric value of one ASCII digit. -/
def digitVal (c : Char) : ℕ := c.toNat - 48

/-- Value of a string of ASCII digits, most significant first (what Python
`int` returns on a digit-only string). -/
def digitsToNat (l : List Char) : ℕ := l.foldl (fun a c => 10 * a + digitVal c) 0

/-- Python `str.split('\n')`: split at every newline, keeping empty pieces;
the empty string yields one empty piece. -/
def splitNl : List Char → List (List Char)
  | [] => [[]]
  | c :: t =>
    if c = '\n' then [] :: splitNl t
    else
      match splitNl t with
      | [] => [[c]]
      | g :: gs => (c :: g) :: gs

/-- Python `str.split()` with no argument: maximal runs of non-whitespace
characters, discarding all whitespace.  The fuel argument only bounds the
recursion; `length + 1` is always enough. -/
def pySplitAux : ℕ → List Char → List (List Char)
  | 0, _ => []
  | _ + 1, [] => []
  | f + 1, c :: t =>
    if c.isWhitespace then pySplitAux f t
    else (c :: t.takeWhile (fun d => !d.isWhitespace))
        :: pySplitAux f (t.dropWhile (fun d => !d.isWhitespace))

/-- Whitespace-separated fields of one listing line (Python `line.split()`). -/
def lineFields (l : List Char) : List (List Char) := pySplitAux (l.length + 1) l

/-- Python `' '.join(parts)`: the pieces rejoined with single spaces. -/
def joinSpace : List (List Char) → List Char
  | [] => []
  | [p] => p
  | p :: ps => p ++ ' ' :: joinSpace ps

/-- Python `int(s)` on a field token: optional sign followed by at least one
ASCII digit, `none` when the literal is invalid (Python raises ValueError).
Underscore digit grouping, which never occurs in `ls -la` output, is not
modelled. -/
def pyIntParse (l : List Char) : Option ℤ :=
  match l with
  | '-' :: ds => if ds ≠ [] && ds.all isDigitChar then some (-(digitsToNat ds : ℤ)) else none
  | '+' :: ds => if ds ≠ [] && ds.all isDigitChar then some (digitsToNat ds : ℤ) else none
  | ds => if ds ≠ [] && ds.all isDigitChar then some (digitsToNat ds : ℤ) else none

/-- Decimal digit characters of a natural number, most significant first.
Defined with fuel so that it evaluates inside the kernel; `n + 1` digits of
fuel always suffice. -/
def natDigitsAux : ℕ → ℕ → List Char
  | 0, _ => []
  | f + 1, n =>
    if n < 10 then [Char.ofNat (48 + n)]
    else natDigitsAux f (n / 10) ++ [Char.ofNat (48 + n % 10)]

/-- Decimal rendering of a natural number (Python `str` of a nonnegative int). -/
def natToStr (n : ℕ) : String := ⟨natDigitsAux (n + 1) n⟩

/-- Decimal rendering of an integer (Python `str` of an int). -/
def intToStr (i : ℤ) : String :=
  if i < 0 then "-" ++ natToStr (-i).toNat else natToStr i.toNat

/-- Boolean test that the first list begins with the second
(used to model literal parts of the Python regular expressions). -/
def startsWithChars : List Char → List Char → Bool
  | [], _ => true
  | _ :: _, [] => false
  | a :: as, b :: bs => a = b && startsWithChars as bs

/-- Python substring containment `needle in hay`. -/
def containsChars (needle : List Char) : List Char → Bool
  | [] => needle.isEmpty
  | c :: t => startsWithChars needle (c :: t) || containsChars needle t

/-! ### format_size (src/src/remote_file_browser.py, lines 7-32)

The Python loop keeps `size = float(b) / 1000**k`; we track the pair
`(b, k)` instead and phrase the guard `size >= 1000` as the exact integer
comparison `1000^(k+1) ≤ b`, and the final one-decimal rendering as
round-half-even of the exact rational `10·b / 1000^k`.  The binary64
rounding of the Python evaluation never changes which unit is selected
(the relative float error, at most a few units in the last place, is far
below the relative gap between consecutive byte counts at every unit
boundary the loop can test), and the spec claims about `format_size` do
not constrain the value of the rounded decimal digit, so exact rational
arithmetic is a sound model here.  (Float conversion overflow, impossible
for the uint64 byte counts this program feeds in, is not modelled.) -/

/-- Units table of `format_size`. -/
def sizeUnits : List String := ["Bytes", "KB", "MB", "GB", "TB", "PB"]

/-- Number of divisions performed by the `while size >= 1000 and
unit_index < len(units) - 1` loop: after `k` divisions the size is
`b / 1000^k`, so the guard `size >= 1000` is `1000^(k+1) ≤ b`.  The loop
runs at most 5 times (fuel 5 is exact). -/
def sizeLoop : ℕ → ℤ → ℕ → ℕ
  | 0, _, k => k
  | f + 1, b, k =>
    if 1000 ^ (k + 1) ≤ b ∧ k < 5 then sizeLoop f b (k + 1) else k

/-- Round n / d to the nearest integer, ties to even (d > 0). -/
def halfEvenDiv (n d : ℕ) : ℕ :=
  let q := n / d
  let r := n % d
  if 2 * r < d then q
  else if d < 2 * r then q + 1
  else if q % 2 = 0 then q else q + 1

/-- One-decimal rendering `f"{size:.1f}"` of the scaled size
`b / 1000^k` (only reached with `b > 0` and `k ≥ 1`). -/
def oneDecimalStr (b : ℤ) (k : ℕ) : String :=
  let n := halfEvenDiv (10 * b.toNat) (1000 ^ k)
  natToStr (n / 10) ++ "." ++ natToStr (n % 10)

/-- Embedding of `format_size` (remote_file_browser.py lines 7-32). -/
def format_size (b : ℤ) : String :=
  let k := sizeLoop 5 b 0
  if k = 0 then intToStr b ++ " " ++ sizeUnits.getD 0 ""
  else oneDecimalStr b k ++ " " ++ sizeUnits.getD k ""

/-! ### The listing parser (RemoteFileBrowser.refresh, lines 132-163) -/

/-- Kind of a listed entry, as displayed in the Type column. -/
inductive EntryKind : Type
  | file
  | directory
  | link
deriving DecidableEq, Repr

/-- One row inserted into the tree view: the entry name (widget text), the
kind, the raw permissions string and the displayed size text (blank for
directories and links, `format_size` of field 4 for files). -/
structure RemoteEntry : Type where
  name : String
  kind : EntryKind
  permissions : String
  sizeText : String
deriving DecidableEq, Repr

/-- Parse one listing line (the body of the `for line in lines` loop):
blank lines and lines with fewer than 9 whitespace-separated fields are
skipped; otherwise field 0 is the permissions string, field 4 the size and
fields 8.. rejoined with single spaces the name.  A non-directory,
non-link line whose size field is not a valid integer literal makes Python
`int` raise, modelled as `Except.error "ValueError"`. -/
def parseLineC (l : List Char) : Except String (Option RemoteEntry) :=
  let parts := lineFields l
  if parts.isEmpty then .ok none
  else if 9 ≤ parts.length then
    let permissions := parts.getD 0 []
    let name := joinSpace (parts.drop 8)
    match parts.getD 0 [] with
    | 'd' :: _ =>
      .ok (some { name := ⟨name⟩, kind := .directory, permissions := ⟨permissions⟩, sizeText := "" })
    | 'l' :: _ =>
      .ok (some { name := ⟨name⟩, kind := .link, permissions := ⟨permissions⟩, sizeText := "" })
    | _ =>
      match pyIntParse (parts.getD 4 []) with
      | some n =>
        .ok (some { name := ⟨name⟩, kind := .file, permissions := ⟨permissions⟩,
                    sizeText := format_size n })
      | none => .error "ValueError"
  else .ok none

/-- Run the parsing loop over the listing lines, collecting the inserted
rows in order; the first raised exception aborts the whole refresh. -/
def collectEntries : List (List Char) → Except String (List RemoteEntry)
  | [] => .ok []
  | l :: ls =>
    match parseLineC l with
    | .error e => .error e
    | .ok none => collectEntries ls
    | .ok (some en) =>
      match collectEntries ls with
      | .error e => .error e
      | .ok es => .ok (en :: es)

/-- Embedding of the listing parser applied to the raw `ls -la` text: the
first line (the `total` summary) is discarded, the rest are parsed in
order. -/
def parseListing (raw : String) : Except String (List RemoteEntry) :=
  collectEntries ((splitNl raw.toList).drop 1)

/-- Successive observable tree-widget states produced while `refresh`
inserts the parsed rows one at a time (`self.tree.insert` per line); a
raised exception stops the loop with no further states. -/
def insertStates (acc : List RemoteEntry) : List (List Char) → List (List RemoteEntry)
  | [] => []
  | l :: ls =>
    match parseLineC l with
    | .error _ => []
    | .ok none => insertStates acc ls
    | .ok (some en) => (acc ++ [en]) :: insertStates (acc ++ [en]) ls

/-- Observable sequence of tree-widget states over one `refresh` call,
starting from the previously displayed entries: the old state, then the
empty state produced by `self.tree.delete(*children)` — which is the state
for the whole duration of the blocking `ls -la` command — then one state
per inserted row. -/
def refreshTrace (old : List RemoteEntry) (raw : String) : List (List RemoteEntry) :=
  old :: [] :: insertStates [] ((splitNl raw.toList).drop 1)

/-! ### Navigation (RemoteFileBrowser, lines 181-213) -/

/-- Characters up to and including the last slash (Python
`p[:p.rfind('/') + 1]`; empty when there is no slash). -/
def takeUptoLastSlash : List Char → List Char
  | [] => []
  | c :: t =>
    match takeUptoLastSlash t with
    | [] => if c = '/' then ['/'] else []
    | r => c :: r

/-- Remove trailing slashes (Python `head.rstrip('/')`). -/
def rstripSlash (l : List Char) : List Char :=
  (l.reverse.dropWhile (fun c => c = '/')).reverse

/-- Embedding of `posixpath.dirname`, used by `go_up`: take everything up
to the last slash, then strip trailing slashes unless the head is empty or
consists only of slashes. -/
def pyDirname (p : String) : String :=
  let head := takeUptoLastSlash p.toList
  if head ≠ [] ∧ head.any (fun c => c ≠ '/') then ⟨rstripSlash head⟩ else ⟨head⟩

/-- Navigation state of the browser: the current path and the forward
history, a Python list used as a stack via `append`/`pop` (push and pop at
the right end, modelled with explicit list concatenation). -/
structure NavState : Type where
  currentPath : String
  forwardHistory : List String
deriving DecidableEq, Repr

/-- Embedding of `navigate_to` (lines 181-191): clear the forward history,
set the current path (the refresh it triggers does not affect navigation
state). -/
def navigate_to (_s : NavState) (p : String) : NavState :=
  { currentPath := p, forwardHistory := [] }

/-- Embedding of `go_up` (lines 193-203): compute the parent with
`os.path.dirname`; when it differs from the current path, push the current
path onto the forward history and move to the parent, otherwise do
nothing. -/
def go_up (s : NavState) : NavState :=
  let parent := pyDirname s.currentPath
  if parent ≠ s.currentPath then
    { currentPath := parent, forwardHistory := s.forwardHistory ++ [s.currentPath] }
  else s

/-- Embedding of `go_forward` (lines 205-213): when the forward history is
non-empty, pop its last element into the current path. -/
def go_forward (s : NavState) : NavState :=
  match s.forwardHistory.getLast? with
  | some p => { currentPath := p, forwardHistory := s.forwardHistory.dropLast }
  | none => s

/-! ### Remote path classifier (ssh_gui.py, is_remote_directory, lines 101-125) -/

/-- Embedding of `is_remote_directory`, as a function of the captured
stdout and stderr of the remote `test -d {path} && echo directory || echo
file` command: `True` when stdout contains `"directory"`, otherwise
`False` when it contains `"file"`, otherwise the Python `raise` with the
message built from the remote path and stderr. -/
def is_remote_directory (remotePath stdout stderr : String) : Except String Bool :=
  if containsChars "directory".toList stdout.toList then .ok true
  else if containsChars "file".toList stdout.toList then .ok false
  else
    .error ("Unable to determine if " ++ remotePath ++
      " is a directory or file. SSH Error: " ++ stderr)

/-! ### The two progress regular expressions (ssh_gui.py, lines 308-336)

Python `re.search` returns the leftmost match; the scan below tries each
start position from the left.  In the pattern `(\d+)%` the group is
greedy, and a backtracked (shorter) digit run is necessarily followed by a
digit, never by `%`, so a position matches exactly when the maximal digit
run starting there is non-empty and is immediately followed by `%`; the
same argument applies to each `\d+` group of `to-check=(\d+)/(\d+)`,
whose backtracked runs would have to be followed by `/` (respectively by
nothing at all). -/

/-- Match of `(\d+)%` anchored at the head of the list: the maximal digit
run when it is non-empty and immediately followed by `%`. -/
def matchPercentAt (l : List Char) : Option (List Char) :=
  match l.takeWhile isDigitChar with
  | [] => none
  | ds =>
    match l.drop ds.length with
    | '%' :: _ => some ds
    | _ => none

/-- Leftmost match of `(\d+)%` (Python `re.search`), as the value of the
captured group. -/
def searchPercent : List Char → Option ℕ
  | [] => none
  | c :: t =>
    match matchPercentAt (c :: t) with
    | some ds => some (digitsToNat ds)
    | none => searchPercent t

/-- Match of `to-check=(\d+)/(\d+)` anchored at the head of the list. -/
def matchToCheckAt (l : List Char) : Option (ℕ × ℕ) :=
  if startsWithChars "to-check=".toList l then
    let rest := l.drop 9
    match rest.takeWhile isDigitChar with
    | [] => none
    | ds1 =>
      match rest.drop ds1.length with
      | '/' :: rest2 =>
        match rest2.takeWhile isDigitChar with
        | [] => none
        | ds2 => some (digitsToNat ds1, digitsToNat ds2)
      | _ => none
  else none

/-- Leftmost match of `to-check=(\d+)/(\d+)` (Python `re.search`), as the
values of the two captured groups (remaining, total). -/
def searchToCheck : List Char → Option (ℕ × ℕ)
  | [] => none
  | c :: t =>
    match matchToCheckAt (c :: t) with
    | some x => some x
    | none => searchToCheck t

/-! ### Binary64 model for the directory-progress computation

`int((checked / total) * 100)` in the Python source is evaluated in IEEE
binary64: the true division `checked / total` is rounded to the nearest
double (ties to even), the product with 100 is rounded again, and `int`
truncates toward zero.  A nonnegative double is represented here exactly
as a mantissa/denominator-free dyadic `m * 2^e` with `m : ℕ` and `e : ℤ`;
`normFrac` scales a positive fraction `n/d` until it lies in
`[2^52, 2^53)` (the fuel far exceeds the number of doublings any value
arising here can need; exponent overflow and subnormals, unreachable at
these magnitudes, are not modelled), and `halfEvenDiv` performs the final
round-to-nearest-ties-to-even.  Both operands of the computation are
nonnegative or are sign-symmetric images of nonnegative ones (IEEE
rounding and truncation are both symmetric under negation), so only the
nonnegative case is implemented and the sign is applied outside. -/

/-- Scale the positive fraction `n/d` (times `2^e`) by powers of two until
`n/d ∈ [2^52, 2^53)`, keeping the represented value `(n/d) * 2^e`
constant. -/
def normFrac : ℕ → ℕ → ℕ → ℤ → ℕ × ℕ × ℤ
  | 0, n, d, e => (n, d, e)
  | f + 1, n, d, e =>
    if n < 2 ^ 52 * d then normFrac f (2 * n) d (e - 1)
    else if 2 ^ 53 * d ≤ n then normFrac f n (2 * d) (e + 1)
    else (n, d, e)

/-- Nearest binary64 value to the nonnegative fraction `(n/d) * 2^e`
(`d > 0`), as a dyadic pair mantissa/exponent. -/
def fl64 (n d : ℕ) (e : ℤ) : ℕ × ℤ :=
  if n = 0 then (0, 0)
  else
    let x := normFrac 1200 n d e
    (halfEvenDiv x.1 x.2.1, x.2.2)

/-- Truncation toward zero of the nonnegative dyadic `m * 2^e`
(Python `int()` applied to a nonnegative float). -/
def truncDyadic (m : ℕ) (e : ℤ) : ℕ :=
  if 0 ≤ e then m * 2 ^ e.toNat else m / 2 ^ (-e).toNat

/-- Binary64 evaluation of `int((checked / total) * 100)` for
`checked = total - remaining` (`total ≠ 0`): correctly rounded division,
correctly rounded product with 100, truncation toward zero.  For
`remaining > total` the Python value is negative; by sign symmetry of
rounding and truncation it is minus the value at the mirrored nonnegative
arguments. -/
def pyDirPercentAbs (checked total : ℕ) : ℕ :=
  let q := fl64 checked total 0
  let p := fl64 (100 * q.1) 1 q.2
  truncDyadic p.1 p.2

/-- Sign wrapper of `pyDirPercentAbs` for `checked = total - remaining`. -/
def pyDirPercent (remaining total : ℕ) : ℤ :=
  if remaining ≤ total then (pyDirPercentAbs (total - remaining) total : ℤ)
  else -(pyDirPercentAbs (remaining - total) total : ℤ)

/-! ### Transfer progress monitor (ssh_gui.py, run_rsync_command, lines 259-343) -/

/-- Phases of a transfer job as the spec's TransferJob models them; the
source realises them through the status label text (`"... in
progress..."`, `"... Complete!"`).  No code path of the source ever
produces `failed`. -/
inductive Phase : Type
  | pending
  | running
  | complete
  | failed
deriving DecidableEq, Repr

/-- Observable job state: progress-bar value and phase. -/
structure JobState : Type where
  percent : ℤ
  phase : Phase
deriving DecidableEq, Repr

/-- Per-line update in the single-file branch (lines 318-323): on a
`(\d+)%` match set the progress value to the captured integer, otherwise
leave it unchanged. -/
def fileStep (p : ℤ) (line : String) : ℤ :=
  match searchPercent line.toList with
  | some n => (n : ℤ)
  | none => p

/-- Per-line update in the directory branch (lines 326-336): when the line
contains `"to-check"` and matches `to-check=(\d+)/(\d+)`, recompute the
progress value; `total = 0` raises ZeroDivisionError in
`(checked / total)`. -/
def dirStep (p : ℤ) (line : String) : Except String ℤ :=
  if containsChars "to-check".toList line.toList then
    match searchToCheck line.toList with
    | some (r, t) =>
      if t = 0 then .error "ZeroDivisionError" else .ok (pyDirPercent r t)
    | none => .ok p
  else .ok p

/-- The output-reading loop: fold the per-line update over the subprocess
stdout lines, aborting on a raised exception. -/
def runLoop (step : ℤ → String → Except String ℤ) : ℤ → List String → Except String ℤ
  | p, [] => .ok p
  | p, l :: ls =>
    match step p l with
    | .ok q => runLoop step q ls
    | .error e => .error e

/-- Embedding of the tail of `run_rsync_command` (lines 306-343): start at
percent 0, stream the stdout lines through the branch selected by
`is_directory`, then — after `process.wait()` — unconditionally set the
progress bar to 100 and the status to Complete.  The exit code of the
awaited process is accepted as an argument to make explicit that the
source never consults it. -/
def run_rsync_command (isDirectory : Bool) (lines : List String) (_exitCode : ℤ) :
    Except String JobState :=
  match runLoop (fun p l => if isDirectory then dirStep p l else .ok (fileStep p l)) 0 lines with
  | .ok _ => .ok { percent := 100, phase := .complete }
  | .error e => .error e

/-! ### Predicates and spec-side interpretations used to state the claims -/

/-- Success test for the embedded exception monad. -/
def exceptOk {ε α : Type} : Except ε α → Bool
  | .ok _ => true
  | .error _ => false

/-- A listing line that reaches the `int(size)` call with a valid integer
literal, or never reaches it: at least 9 fields whose permissions field
starts with `d` or `l`, or whose field 4 parses as an integer. -/
def lineWellFormed (l : List Char) : Bool :=
  9 ≤ (lineFields l).length &&
    (match (lineFields l).getD 0 [] with
     | 'd' :: _ => true
     | 'l' :: _ => true
     | _ => (pyIntParse ((lineFields l).getD 4 [])).isSome)

/-- A listing line the parser is guaranteed not to raise on: fewer than 9
fields (silently skipped, blank lines included) or well formed. -/
def lineSafe (l : List Char) : Bool :=
  (lineFields l).length < 9 || lineWellFormed l

/-- Interpretation of one well-formed listing line following the claim's
words: field 0 is the permissions string (first character `d` means
Directory, `l` means Link, otherwise File), field 4 the size (blank for
directories and links, `format_size` of the parsed integer for files) and
the fields from position 8 onward, rejoined with single spaces, the name. -/
def entrySpec (l : List Char) : RemoteEntry :=
  let fs := lineFields l
  let perms := fs.getD 0 []
  { name := ⟨joinSpace (fs.drop 8)⟩,
    kind :=
      match perms with
      | 'd' :: _ => .directory
      | 'l' :: _ => .link
      | _ => .file,
    permissions := ⟨perms⟩,
    sizeText :=
      match perms with
      | 'd' :: _ => ""
      | 'l' :: _ => ""
      | _ => format_size ((pyIntParse (fs.getD 4 [])).getD 0) }

/-- Shape check for "rendered with exactly one decimal digit": the string
ends in a dot followed by a single digit. -/
def oneDecimalShape (s : String) : Bool :=
  match s.toList.reverse with
  | d :: '.' :: _ => isDigitChar d
  | _ => false

/-! ## Theorems -/

/-- C1 (counterexample).  The claim says a non-zero exit code ends the job
with `phase = Failed`; but `run_rsync_command` never consults the exit
code: with exit code 1 the job still ends Complete at 100 percent. -/
theorem c1_counterexample :
    run_rsync_command false ["rsync error: some files could not be transferred"] 1 =
      .ok { percent := 100, phase := .complete } ∧
    Phase.complete ≠ Phase.failed := by
  exact ⟨rfl, by decide⟩

/-- C1 (amended).  After the output stream ends and the process is
awaited, the job always ends with `phase = Complete` and `percent = 100`,
for every source kind, output stream and exit code: the source contains no
failure branch, never reads the exit code of the awaited process, and
never surfaces `phase = Failed` or any error text. -/
theorem c1_amended :
    ∀ (isDirectory : Bool) (lines : List String) (exitCode : ℤ) (st : JobState),
      run_rsync_command isDirectory lines exitCode = .ok st →
      st.percent = 100 ∧ st.phase = .complete := by
  intro d lines c st h
  unfold run_rsync_command at h
  split at h
  · cases h
    exact ⟨rfl, rfl⟩
  · cases h

/-- Witness for C1: concrete instantiation at a failing exit code. -/
theorem c1_amended_witness :
    (⟨100, .complete⟩ : JobState).percent = 100 ∧
    (⟨100, .complete⟩ : JobState).phase = .complete :=
  c1_amended false ["sent 42%"] 23 ⟨100, .complete⟩ rfl

/-- C4 (confirmed).  As a function of the captured remote response,
`is_remote_directory` answers Directory (`true`) when stdout contains the
token `directory`, File (`false`) when it contains the token `file` (and
not `directory`), and raises — never silently defaulting to File — when
the response contains neither token, as happens when the remote command
itself fails and prints nothing. -/
theorem c4_classifier :
    ∀ (path out err : String),
      (containsChars "directory".toList out.toList = true →
        is_remote_directory path out err = .ok true) ∧
      (containsChars "directory".toList out.toList = false →
        containsChars "file".toList out.toList = true →
        is_remote_directory path out err = .ok false) ∧
      (containsChars "directory".toList out.toList = false →
        containsChars "file".toList out.toList = false →
        is_remote_directory path out err =
          .error ("Unable to determine if " ++ path ++
            " is a directory or file. SSH Error: " ++ err)) := by
  intro path out err
  refine ⟨fun h1 => ?_, fun h1 h2 => ?_, fun h1 h2 => ?_⟩
  · unfold is_remote_directory
    rw [h1]
    simp
  · unfold is_remote_directory
    rw [h1, h2]
    simp
  · unfold is_remote_directory
    rw [h1, h2]
    simp

/-- Witness for C4: the three response shapes at concrete inputs. -/
theorem c4_classifier_witness :
    is_remote_directory "/p" "directory\n" "" = .ok true ∧
    is_remote_directory "/p" "file\n" "" = .ok false ∧
    is_remote_directory "/p" "" "ssh: connect refused" =
      .error ("Unable to determine if /p is a directory or file. SSH Error: " ++
        "ssh: connect refused") :=
  ⟨(c4_classifier "/p" "directory\n" "").1 (by decide),
   (c4_classifier "/p" "file\n" "").2.1 (by decide) (by decide),
   (c4_classifier "/p" "" "ssh: connect refused").2.2 (by decide) (by decide)⟩

/-- C9 (confirmed).  Forward history is populated only by `go_up` — which
pushes the pre-move current path except at the root `"/"`, where it leaves
the state unchanged — and is cleared by every `navigate_to`; `go_forward`
pops the most recently pushed entry into the current path when the history
is non-empty and is a no-op otherwise.  The concrete sequence
`navigate_to "/a"`, `go_up`, `go_forward` restores `"/a"`, and after a
subsequent `navigate_to "/b"` a `go_forward` leaves the state unchanged. -/
theorem c9_navigation :
    ∀ (s : NavState) (p : String),
      ((navigate_to s p).currentPath = p ∧ (navigate_to s p).forwardHistory = []) ∧
      (s.currentPath = "/" → go_up s = s) ∧
      (pyDirname s.currentPath ≠ s.currentPath →
        go_up s = { currentPath := pyDirname s.currentPath,
                    forwardHistory := s.forwardHistory ++ [s.currentPath] }) ∧
      (s.forwardHistory = [] → go_forward s = s) ∧
      (∀ (h : List String) (q : String), s.forwardHistory = h ++ [q] →
        go_forward s = { currentPath := q, forwardHistory := h }) ∧
      ((go_forward (go_up (navigate_to s "/a"))).currentPath = "/a" ∧
        go_forward (navigate_to (go_forward (go_up (navigate_to s "/a"))) "/b") =
          { currentPath := "/b", forwardHistory := [] }) := by
  intro s p
  refine ⟨⟨rfl, rfl⟩, fun h => ?_, fun h => ?_, fun h => ?_, fun hl q hq => ?_, rfl, rfl⟩
  · have hroot : pyDirname "/" = "/" := rfl
    simp [go_up, h, hroot]
  · simp only [go_up]
    rw [if_pos h]
  · simp [go_forward, h]
  · simp [go_forward, hq, List.getLast?_concat, List.dropLast_concat]

/-- Witness for C9: the hypotheses discharged at concrete states. -/
theorem c9_navigation_witness :
    go_up ⟨"/", ["/y"]⟩ = ⟨"/", ["/y"]⟩ ∧
    go_up ⟨"/a/b", []⟩ = ⟨"/a", ["/a/b"]⟩ ∧
    go_forward ⟨"/q", []⟩ = ⟨"/q", []⟩ ∧
    go_forward ⟨"/x", ["/u", "/y"]⟩ = ⟨"/y", ["/u"]⟩ :=
  ⟨(c9_navigation ⟨"/", ["/y"]⟩ "/a").2.1 rfl,
   (c9_navigation ⟨"/a/b", []⟩ "/a").2.2.1 (by decide),
   (c9_navigation ⟨"/q", []⟩ "/a").2.2.2.1 rfl,
   (c9_navigation ⟨"/x", ["/u", "/y"]⟩ "/a").2.2.2.2.1 ["/u"] "/y" rfl⟩

/-- C7 (confirmed).  In the single-file branch every line on which the
`(\d+)%` pattern matches sets the percent to the captured integer — the
latest parsed value, with no monotonicity enforcement — and every line
without a match leaves the percent unchanged; concretely, a line
containing `42%` sets 42, a following pattern-free line keeps 42, and a
later smaller value such as 5 overwrites a larger one. -/
theorem c7_file_progress :
    ∀ (p : ℤ) (line : String),
      (∀ n : ℕ, searchPercent line.toList = some n → fileStep p line = (n : ℤ)) ∧
      (searchPercent line.toList = none → fileStep p line = p) ∧
      runLoop (fun q l => .ok (fileStep q l)) p
          ["  12.3MB/s   42%  0:00:01", "speedup is 1.00"] = .ok 42 ∧
      fileStep 99 "xfr#2  5% done" = 5 := by
  intro p line
  refine ⟨fun n h => ?_, fun h => ?_, rfl, rfl⟩
  · unfold fileStep
    rw [h]
  · unfold fileStep
    rw [h]

/-- Witness for C7: the match and no-match hypotheses discharged at
concrete lines. -/
theorem c7_file_progress_witness :
    fileStep 0 "moved 42% so far" = 42 ∧ fileStep 7 "connecting" = 7 :=
  ⟨(c7_file_progress 0 "moved 42% so far").1 42 rfl,
   (c7_file_progress 7 "connecting").2.1 rfl⟩

/-- A list beginning with `a ++ b` also begins with `a`. -/
theorem startsWith_append_left :
    ∀ (a b l : List Char), startsWithChars (a ++ b) l = true → startsWithChars a l = true := by
  intro a
  induction a with
  | nil => intro b l _; rfl
  | cons c as ih =>
    intro b l h
    cases l with
    | nil => exact absurd h (by simp [startsWithChars])
    | cons d t =>
      simp only [List.cons_append, startsWithChars, Bool.and_eq_true] at h ⊢
      exact ⟨h.1, ih b t h.2⟩

/-- A successful anchored `to-check=(\d+)/(\d+)` match implies the line
starts with the literal `to-check=`. -/
theorem matchToCheckAt_startsWith (l : List Char) (x : ℕ × ℕ)
    (h : matchToCheckAt l = some x) :
    startsWithChars "to-check=".toList l = true := by
  unfold matchToCheckAt at h
  by_cases hs : startsWithChars "to-check=".toList l = true
  · exact hs
  · rw [Bool.not_eq_true] at hs
    rw [hs] at h
    simp at h

/-- A successful `re.search` for `to-check=(\d+)/(\d+)` implies the Python
substring test `"to-check" in line` succeeds. -/
theorem searchToCheck_contains :
    ∀ (l : List Char) (x : ℕ × ℕ), searchToCheck l = some x →
      containsChars "to-check".toList l = true := by
  intro l
  induction l with
  | nil => intro x h; cases h
  | cons c t ih =>
    intro x h
    unfold searchToCheck at h
    unfold containsChars
    cases hm : matchToCheckAt (c :: t) with
    | some y =>
      have hsw := matchToCheckAt_startsWith (c :: t) y hm
      have : startsWithChars ("to-check".toList ++ ['=']) (c :: t) = true := hsw
      rw [startsWith_append_left _ _ _ this]
      rfl
    | none =>
      rw [hm] at h
      rw [ih x h, Bool.or_true]

/-- C6 (counterexample).  The claim computes
`percent = floor((total - remaining) / total * 100)` exactly; but the
source evaluates it in binary64 and truncates, which loses a unit whenever
the rounded product falls just below an exact integer: on the line
`to-check=71/100` the exact value is `floor(29/100 * 100) = 29`, while the
Python evaluation `int((29/100) * 100)` yields 28 (0.29 rounds to a double
slightly below 29/100, and 28.999999999999996 truncates to 28). -/
theorem c6_counterexample :
    dirStep 0 " 9 files to-check=71/100" = .ok 28 ∧
    ((100 - 71 : ℤ) * 100) / 100 = 29 ∧ (28 : ℤ) ≠ 29 := by
  exact ⟨rfl, by decide, by decide⟩

/-- C6 (amended).  During a directory transfer, every line without a
`to-check=(remaining)/(total)` match leaves the percent unchanged, and
every line with a match (and non-zero total) sets
`percent = int((total - remaining) / total * 100)` evaluated in binary64
arithmetic — which for `to-check=50/200` is the claimed
`floor((200-50)/200*100) = 75`, but which can fall one below the exact
floor (see the counterexample); a matched total of zero raises
ZeroDivisionError. -/
theorem c6_amended :
    ∀ (p : ℤ) (line : String),
      (searchToCheck line.toList = none → dirStep p line = .ok p) ∧
      (∀ r t : ℕ, searchToCheck line.toList = some (r, t) → t ≠ 0 →
        dirStep p line = .ok (pyDirPercent r t)) ∧
      (∀ r : ℕ, searchToCheck line.toList = some (r, 0) →
        dirStep p line = .error "ZeroDivisionError") ∧
      dirStep p " 12345 files  to-check=50/200" = .ok 75 := by
  intro p line
  refine ⟨fun h => ?_, fun r t h ht => ?_, fun r h => ?_, rfl⟩
  · unfold dirStep
    rw [h]
    split <;> rfl
  · unfold dirStep
    rw [searchToCheck_contains line.toList (r, t) h, h]
    simp [ht]
  · unfold dirStep
    rw [searchToCheck_contains line.toList (r, 0) h, h]
    simp

/-- Witness for C6: the no-match and match hypotheses discharged at
concrete lines. -/
theorem c6_amended_witness :
    dirStep 37 "receiving incremental file list" = .ok 37 ∧
    dirStep 0 "to-check=71/100" = .ok (pyDirPercent 71 100) ∧
    dirStep 0 "to-check=1/0" = .error "ZeroDivisionError" :=
  ⟨(c6_amended 37 "receiving incremental file list").1 rfl,
   (c6_amended 0 "to-check=71/100").2.1 71 100 rfl (by decide),
   (c6_amended 0 "to-check=1/0").2.2.1 1 rfl⟩

/-- Definitional unfolding of the scan step of `searchPercent`. -/
theorem searchPercent_cons (c : Char) (t : List Char) :
    searchPercent (c :: t) =
      match matchPercentAt (c :: t) with
      | some ds => some (digitsToNat ds)
      | none => searchPercent t := rfl

/-- The maximal digit run of a list that starts with an all-digit block. -/
theorem takeWhile_digits_append (a b : List Char) (ha : ∀ c ∈ a, isDigitChar c = true) :
    (a ++ b).takeWhile isDigitChar = a ++ b.takeWhile isDigitChar := by
  induction a with
  | nil => rfl
  | cons c as ih =>
    have h1 : isDigitChar c = true := ha c (by simp)
    have h2 := ih fun d hd => ha d (by simp [hd])
    simp [List.takeWhile_cons, h1, h2]

/-- An anchored `(\d+)%` match fails everywhere inside a percent-free
block followed by a dot: the digit run from any such position stops at a
non-digit that is not `%` (a non-digit member of the block or the dot
itself), and backtracked shorter runs end on digits, never on `%`. -/
theorem matchPercentAt_dot_none :
    ∀ (w r : List Char), (∀ c ∈ w, c ≠ '%') → matchPercentAt (w ++ '.' :: r) = none := by
  intro w
  induction w with
  | nil =>
    intro r _
    have hd : isDigitChar '.' = false := rfl
    unfold matchPercentAt
    rw [List.nil_append, List.takeWhile_cons, hd]
    rfl
  | cons c w ih =>
    intro r hw
    have hcw : ∀ d ∈ w, d ≠ '%' := fun d hd => hw d (by simp [hd])
    by_cases hc : isDigitChar c = true
    · unfold matchPercentAt
      rw [List.cons_append, List.takeWhile_cons, hc]
      simp only [if_true]
      have hrest := ih r hcw
      unfold matchPercentAt at hrest
      cases htw : (w ++ '.' :: r).takeWhile isDigitChar with
      | nil =>
        simp only [htw, List.length_cons, List.length_nil, List.drop_succ_cons,
          List.drop_zero]
        cases w with
        | nil => rfl
        | cons a w2 =>
          have ha : a ≠ '%' := hw a (by simp)
          rw [List.cons_append]
          split
          · rename_i tail heq
            exact absurd (List.cons.injEq .. ▸ heq).1 ha
          · rfl
      | cons d ds =>
        rw [htw] at hrest
        simp only [List.length_cons, List.drop_succ_cons] at hrest ⊢
        split at hrest
        · exact absurd hrest (by simp)
        · rfl
    · have hcf : isDigitChar c = false := by simpa using hc
      unfold matchPercentAt
      rw [List.cons_append, List.takeWhile_cons, hcf]
      rfl

/-- The `re.search` scan skips a percent-free block followed by a dot. -/
theorem searchPercent_skip :
    ∀ (w r : List Char), (∀ c ∈ w, c ≠ '%') →
      searchPercent (w ++ '.' :: r) = searchPercent r := by
  intro w
  induction w with
  | nil =>
    intro r hw
    have hm : matchPercentAt ('.' :: r) = none := by
      have h := matchPercentAt_dot_none [] r (by simp)
      rwa [List.nil_append] at h
    rw [List.nil_append, searchPercent_cons, hm]
  | cons c w ih =>
    intro r hw
    have hcw : ∀ d ∈ w, d ≠ '%' := fun d hd => hw d (by simp [hd])
    have hm : matchPercentAt (c :: (w ++ '.' :: r)) = none := by
      have h := matchPercentAt_dot_none (c :: w) r hw
      rwa [List.cons_append] at h
    rw [List.cons_append, searchPercent_cons, hm]
    exact ih r hcw

/-- At the start of a non-empty digit run followed by `%`, the search
returns the value of the whole run. -/
theorem searchPercent_digits (ds post : List Char) (hne : ds ≠ [])
    (hds : ∀ c ∈ ds, isDigitChar c = true) :
    searchPercent (ds ++ '%' :: post) = some (digitsToNat ds) := by
  cases ds with
  | nil => exact absurd rfl hne
  | cons d ds2 =>
    have hpc : isDigitChar '%' = false := rfl
    have htw : ((d :: ds2) ++ '%' :: post).takeWhile isDigitChar = d :: ds2 := by
      rw [takeWhile_digits_append _ _ hds, List.takeWhile_cons, hpc]
      simp
    have hm : matchPercentAt ((d :: ds2) ++ '%' :: post) = some (d :: ds2) := by
      unfold matchPercentAt
      rw [htw]
      simp only [List.length_cons, List.cons_append, List.drop_succ_cons, List.drop_left]
    rw [List.cons_append, searchPercent_cons]
    rw [List.cons_append] at hm
    rw [hm]


/-- C8 (confirmed).  On any line whose first `%` is immediately preceded
by the decimal fraction digits of a decimal percentage — the line being an
arbitrary percent-free block, then integer digits, a dot, the fraction
digits and `%` — the `(\d+)%` search captures only the digit run
immediately before the `%` (the fraction digits), so the reported percent
becomes that fraction value (e.g. 2 for `50.2%`) and can drop sharply. -/
theorem c8_decimal_percent :
    ∀ (p : ℤ) (pre ds1 ds2 post : List Char),
      (∀ c ∈ pre, c ≠ '%') → ds1 ≠ [] → (∀ c ∈ ds1, isDigitChar c = true) →
      ds2 ≠ [] → (∀ c ∈ ds2, isDigitChar c = true) →
      fileStep p ⟨pre ++ ds1 ++ '.' :: ds2 ++ '%' :: post⟩ = (digitsToNat ds2 : ℤ) := by
  intro p pre ds1 ds2 post hpre _ hds1 hne2 hds2
  have hw : ∀ c ∈ pre ++ ds1, c ≠ '%' := by
    intro c hc
    rcases List.mem_append.1 hc with h | h
    · exact hpre c h
    · intro heq
      have := hds1 c h
      rw [heq] at this
      exact absurd this (by decide)
  unfold fileStep
  have hlist : (⟨pre ++ ds1 ++ '.' :: ds2 ++ '%' :: post⟩ : String).toList
      = (pre ++ ds1) ++ '.' :: (ds2 ++ '%' :: post) := by
    show pre ++ ds1 ++ '.' :: ds2 ++ '%' :: post = (pre ++ ds1) ++ '.' :: (ds2 ++ '%' :: post)
    simp
  rw [hlist, searchPercent_skip (pre ++ ds1) _ hw, searchPercent_digits ds2 post hne2 hds2]

/-- Witness for C8: the spec's own example line `50.2%` yields percent 2. -/
theorem c8_decimal_percent_witness : fileStep 0 "50.2%" = 2 := by
  have h := c8_decimal_percent 0 [] ['5', '0'] ['2'] []
    (by simp) (by simp) (by decide) (by simp) (by decide)
  exact h

/-- One-line characterization of the body of the parsing loop: it skips
safe short/blank lines, produces the positionally interpreted entry on
well-formed lines, and raises ValueError otherwise. -/
theorem parseLineC_eq (l : List Char) :
    parseLineC l =
      if lineSafe l then .ok (if lineWellFormed l then some (entrySpec l) else none)
      else .error "ValueError" := by
  unfold parseLineC lineSafe lineWellFormed entrySpec
  by_cases hE : (lineFields l).isEmpty
  · have hnil : lineFields l = [] := by simpa [List.isEmpty_iff] using hE
    simp [hE, hnil]
  · simp only [hE, Bool.false_eq_true, if_false]
    by_cases h9 : 9 ≤ (lineFields l).length
    · have h9d : decide (9 ≤ (lineFields l).length) = true := by simpa using h9
      have hlt : decide ((lineFields l).length < 9) = false := by
        simp
        omega
      simp only [h9, if_true, h9d, hlt, Bool.false_or, Bool.true_and]
      split
      · simp
      · simp
      · rename_i hd hl
        cases hp : pyIntParse ((lineFields l).getD 4 []) with
        | some n => simp [hp]
        | none => simp [hp]
    · have hlt : decide ((lineFields l).length < 9) = true := by
        simp
        omega
      simp [h9, hlt]

/-- Success of the per-line parse coincides with line safety. -/
theorem exceptOk_parseLineC_aux (l : List Char) :
    exceptOk (parseLineC l) = lineSafe l := by
  rw [parseLineC_eq]
  split
  · rename_i h
    rw [h]
    rfl
  · rename_i h
    have hf : lineSafe l = false := by simpa using h
    rw [hf]
    rfl

/-- The parse succeeds exactly when every line is safe. -/
theorem exceptOk_collectEntries :
    ∀ ls : List (List Char),
      exceptOk (collectEntries ls) = ls.all (fun l => lineSafe l) := by
  intro ls
  induction ls with
  | nil => rfl
  | cons l ls ih =>
    unfold collectEntries
    cases hp : parseLineC l with
    | error e =>
      have hs := exceptOk_parseLineC_aux l
      rw [hp] at hs
      simp [List.all_cons, ← hs, exceptOk]
    | ok o =>
      have hs := exceptOk_parseLineC_aux l
      rw [hp] at hs
      cases o with
      | none =>
        have h2 : lineSafe l = true := by
          rw [← hs]
          rfl
        rw [List.all_cons, h2, Bool.true_and]
        exact ih
      | some en =>
        cases hc : collectEntries ls with
        | error e =>
          rw [hc] at ih
          simp [List.all_cons, ← hs, ← ih, exceptOk]
        | ok es =>
          rw [hc] at ih
          simp [List.all_cons, ← hs, ← ih, exceptOk]

/-- C2 (counterexample).  The claim says the parser never raises on any
input line; but a 9-field line whose size field is not an integer literal
(here `x`) reaches `int(size)` and raises ValueError. -/
theorem c2_counterexample :
    parseListing "total 0\n-rw-r--r-- 1 u g x Oct 1 00:00 f" = .error "ValueError" := rfl

/-- The only exception the parsing loop ever propagates is the ValueError
of the unguarded `int(size)` call. -/
theorem collectEntries_error :
    ∀ (ls : List (List Char)) (e : String),
      collectEntries ls = .error e → e = "ValueError" := by
  intro ls
  induction ls with
  | nil => intro e h; cases h
  | cons l ls ih =>
    intro e h
    unfold collectEntries at h
    cases hp : parseLineC l with
    | error e2 =>
      have he2 : e2 = "ValueError" := by
        rw [parseLineC_eq] at hp
        by_cases hs : lineSafe l = true
        · rw [if_pos hs] at hp
          cases hp
        · rw [if_neg hs] at hp
          cases hp
          rfl
      rw [hp] at h
      cases h
      exact he2
    | ok o =>
      rw [hp] at h
      cases o with
      | none => exact ih e h
      | some en =>
        cases hc : collectEntries ls with
        | error e2 =>
          rw [hc] at h
          cases h
          exact ih _ hc
        | ok es =>
          rw [hc] at h
          cases h

/-- C2 (amended).  The parser silently skips any line that does not
tokenize into at least 9 whitespace-separated fields — such a line yields
no entry and raises nothing — but it is not exception-free: it raises
ValueError, and only ValueError, exactly when some line after the
discarded first one has at least 9 fields, a permissions field that starts
with neither `d` nor `l`, and a field 4 that is not a valid integer
literal.  Equivalently, the parse succeeds if and only if every line after
the first is safe in this sense. -/
theorem c2_amended :
    ∀ raw : String,
      exceptOk (parseListing raw) =
        ((splitNl raw.toList).drop 1).all (fun l => lineSafe l) ∧
      (∀ l : List Char, (lineFields l).length < 9 → parseLineC l = .ok none) ∧
      (∀ e : String, parseListing raw = .error e → e = "ValueError") := by
  intro raw
  refine ⟨exceptOk_collectEntries _, fun l hl => ?_, fun e he => collectEntries_error _ e he⟩
  have hsafe : lineSafe l = true := by
    unfold lineSafe
    have hd : decide ((lineFields l).length < 9) = true := by simpa using hl
    rw [hd, Bool.true_or]
  have hwf : lineWellFormed l = false := by
    unfold lineWellFormed
    have hd : decide (9 ≤ (lineFields l).length) = false := by
      simp
      omega
    rw [hd, Bool.false_and]
  rw [parseLineC_eq, hsafe, hwf]
  simp

/-- Witness for C2: a 4-field line is skipped without an exception, and a
listing with a bad size field raises exactly the ValueError. -/
theorem c2_amended_witness :
    parseLineC "drwxr-xr-x 2 u g".toList = .ok none ∧ "ValueError" = "ValueError" :=
  ⟨(c2_amended "").2.1 "drwxr-xr-x 2 u g".toList (by decide),
   (c2_amended "total 0\n-rw-r--r-- 1 u g q Oct 1 00:00 g").2.2 "ValueError" rfl⟩

/-- On safe lines the parsing loop collects exactly the positionally
interpreted entries of the well-formed lines, in input order. -/
theorem collectEntries_safe :
    ∀ ls : List (List Char), (∀ l ∈ ls, lineSafe l = true) →
      collectEntries ls =
        .ok (ls.filterMap (fun l => if lineWellFormed l then some (entrySpec l) else none)) := by
  intro ls
  induction ls with
  | nil => intro _; rfl
  | cons l ls ih =>
    intro h
    have hl : lineSafe l = true := h l (by simp)
    have hrest := ih fun x hx => h x (by simp [hx])
    unfold collectEntries
    rw [parseLineC_eq l, hl]
    by_cases hwf : lineWellFormed l = true
    · simp only [hwf, if_true, List.filterMap_cons, hrest]
    · have hwf2 : lineWellFormed l = false := by simpa using hwf
      simp only [hwf2, Bool.false_eq_true, if_false, if_true, List.filterMap_cons, hrest]

/-- With all lines well formed the conditional filter is the plain map. -/
theorem filterMap_if_all {α β : Type} (p : α → Bool) (f : α → β) :
    ∀ ls : List α, (∀ l ∈ ls, p l = true) →
      ls.filterMap (fun l => if p l then some (f l) else none) = ls.map f := by
  intro ls
  induction ls with
  | nil => intro _; rfl
  | cons a as ih =>
    intro h
    rw [List.filterMap_cons, List.map_cons]
    simp only [h a (by simp), if_true]
    rw [ih fun x hx => h x (by simp [hx])]

/-- C5 (counterexample).  The claim calls a line well formed as soon as it
has at least 9 whitespace-separated fields; this 9-field line whose size
field is `abc` should then yield exactly one entry, but the parser raises
ValueError instead of producing any output. -/
theorem c5_counterexample :
    parseListing "total 8\n-rw-r--r-- 1 user group abc Oct 1 00:00 data.txt" =
      .error "ValueError" ∧
    exceptOk (parseListing "total 8\n-rw-r--r-- 1 user group abc Oct 1 00:00 data.txt") =
      false := ⟨rfl, rfl⟩

/-- C5 (amended).  With well-formedness additionally requiring that a line
whose permissions field starts with neither `d` nor `l` has an integer
field 4 (otherwise the parser raises, see C2): the first input line is
always discarded; blank or short (fewer than 9 fields) lines are dropped;
the remaining lines yield one entry each, in input order — so a listing
whose lines after the first are all well formed yields exactly as many
entries as lines — with field 0 the permissions string, field 4 the size
and fields 8 onward, rejoined with single spaces, the name, as
`entrySpec` states. -/
theorem c5_amended :
    ∀ raw : String,
      ((∀ l ∈ (splitNl raw.toList).drop 1, lineSafe l = true) →
        parseListing raw =
          .ok (((splitNl raw.toList).drop 1).filterMap
            (fun l => if lineWellFormed l then some (entrySpec l) else none))) ∧
      ((∀ l ∈ (splitNl raw.toList).drop 1, lineWellFormed l = true) →
        parseListing raw = .ok (((splitNl raw.toList).drop 1).map entrySpec)) := by
  intro raw
  constructor
  · intro h
    exact collectEntries_safe _ h
  · intro h
    have hsafe : ∀ l ∈ (splitNl raw.toList).drop 1, lineSafe l = true := by
      intro l hl
      unfold lineSafe
      rw [h l hl, Bool.or_true]
    unfold parseListing
    rw [collectEntries_safe _ hsafe, filterMap_if_all _ _ _ h]

/-- Witness for C5: a listing with one directory line and one file line
(the file name containing a space) parses to exactly those two entries. -/
theorem c5_amended_witness :
    parseListing
        "total 8\ndrwxr-xr-x 2 u g 4096 Oct 1 00:00 sub dir\n-rw-r--r-- 1 u g 1234 Oct 1 00:00 a.txt" =
      .ok (((splitNl ("total 8\ndrwxr-xr-x 2 u g 4096 Oct 1 00:00 sub dir\n-rw-r--r-- 1 u g 1234 Oct 1 00:00 a.txt" : String).toList).drop 1).map
        entrySpec) :=
  (c5_amended "total 8\ndrwxr-xr-x 2 u g 4096 Oct 1 00:00 sub dir\n-rw-r--r-- 1 u g 1234 Oct 1 00:00 a.txt").2
    (by decide)

/-- The insertion loop visits exactly the successive extensions of the
accumulator by longer and longer prefixes of the collected entries. -/
theorem insertStates_ok :
    ∀ (ls : List (List Char)) (acc es : List RemoteEntry),
      collectEntries ls = .ok es →
      insertStates acc ls = (List.range es.length).map (fun i => acc ++ es.take (i + 1)) := by
  intro ls
  induction ls with
  | nil =>
    intro acc es h
    cases h
    rfl
  | cons l ls ih =>
    intro acc es h
    unfold collectEntries at h
    unfold insertStates
    cases hp : parseLineC l with
    | error e =>
      rw [hp] at h
      cases h
    | ok o =>
      rw [hp] at h
      cases o with
      | none => exact ih acc es h
      | some en =>
        cases hc : collectEntries ls with
        | error e =>
          rw [hc] at h
          cases h
        | ok es2 =>
          rw [hc] at h
          cases h
          show (acc ++ [en]) :: insertStates (acc ++ [en]) ls =
            (List.range (en :: es2).length).map (fun i => acc ++ (en :: es2).take (i + 1))
          rw [ih (acc ++ [en]) es2 hc, List.length_cons, List.range_succ_eq_map]
          simp [Function.comp, List.take_succ_cons, List.append_assoc]

/-- C3 (counterexample).  The claim says the displayed entry set is
replaced atomically, the old listing staying until the new one is fully
parsed; but `refresh` deletes all tree items before even issuing the
listing command, and inserts the new rows one at a time: with one old
entry and a two-entry listing the observable trace passes through the
empty state (while the remote command runs) and through a one-entry
state, neither of which is the old or the new listing. -/
theorem c3_counterexample :
    refreshTrace [⟨"old.txt", .file, "-rw-r--r--", "7 Bytes"⟩]
        "total 0\ndrwxr-xr-x 2 u g 4096 Oct 1 00:00 d1\ndrwxr-xr-x 2 u g 4096 Oct 1 00:00 d2" =
      [[⟨"old.txt", .file, "-rw-r--r--", "7 Bytes"⟩], [],
        [⟨"d1", .directory, "drwxr-xr-x", ""⟩],
        [⟨"d1", .directory, "drwxr-xr-x", ""⟩, ⟨"d2", .directory, "drwxr-xr-x", ""⟩]] ∧
    ([] : List RemoteEntry) ≠ [⟨"old.txt", .file, "-rw-r--r--", "7 Bytes"⟩] ∧
    ([] : List RemoteEntry) ≠
      [⟨"d1", .directory, "drwxr-xr-x", ""⟩, ⟨"d2", .directory, "drwxr-xr-x", ""⟩] :=
  ⟨rfl, by decide, by decide⟩

/-- C3 (amended).  `refresh` is not atomic: it clears the displayed entry
set before issuing the listing command — so the display is empty, not the
old listing, for the whole duration of the command — and then inserts the
parsed rows one at a time: the observable trace of display states is the
old listing followed by every prefix of the new listing in order, from
the empty display up to the full new listing. -/
theorem c3_amended :
    ∀ (old : List RemoteEntry) (raw : String) (es : List RemoteEntry),
      parseListing raw = .ok es →
      refreshTrace old raw =
        old :: (List.range (es.length + 1)).map (fun i => es.take i) := by
  intro old raw es h
  unfold refreshTrace
  rw [insertStates_ok _ [] es h, List.range_succ_eq_map]
  simp [List.map_map, Function.comp]

/-- Witness for C3: a one-entry listing from an empty previous display. -/
theorem c3_amended_witness :
    refreshTrace [] "total 0\ndrwxr-xr-x 2 u g 4096 Oct 1 00:00 d1" =
      [] :: (List.range 2).map
        (fun i => ([⟨"d1", .directory, "drwxr-xr-x", ""⟩] : List RemoteEntry).take i) :=
  c3_amended [] "total 0\ndrwxr-xr-x 2 u g 4096 Oct 1 00:00 d1"
    [⟨"d1", .directory, "drwxr-xr-x", ""⟩] rfl

/-- Invariant analysis of the unit-selection loop of `format_size`:
starting at index `k` with fuel `5 - k`, the final index stays between `k`
and 5, is reached only through guards `1000^i ≤ b`, and when it is below 5
it is the first index whose scaled value is below 1000. -/
theorem sizeLoop_spec :
    ∀ (f : ℕ) (b : ℤ) (k : ℕ), k + f = 5 →
      k ≤ sizeLoop f b k ∧ sizeLoop f b k ≤ 5 ∧
      (sizeLoop f b k = k ∨ (1000 : ℤ) ^ sizeLoop f b k ≤ b) ∧
      (sizeLoop f b k < 5 → b < 1000 ^ (sizeLoop f b k + 1)) := by
  intro f
  induction f with
  | zero =>
    intro b k hk
    have h0 : sizeLoop 0 b k = k := rfl
    rw [h0]
    exact ⟨le_refl _, by omega, Or.inl rfl, fun h5 => by omega⟩
  | succ f ih =>
    intro b k hk
    by_cases hc : (1000 : ℤ) ^ (k + 1) ≤ b ∧ k < 5
    · have hstep : sizeLoop (f + 1) b k = sizeLoop f b (k + 1) := by
        rw [sizeLoop, if_pos hc]
      obtain ⟨i1, i2, i3, i4⟩ := ih b (k + 1) (by omega)
      rw [hstep]
      refine ⟨by omega, i2, Or.inr ?_, i4⟩
      rcases i3 with heq | hle
      · rw [heq]
        exact hc.1
      · exact hle
    · have hstep : sizeLoop (f + 1) b k = k := by
        rw [sizeLoop, if_neg hc]
      rw [hstep]
      refine ⟨le_refl _, by omega, Or.inl rfl, fun _ => ?_⟩
      have hklt : k < 5 := by omega
      have : ¬ (1000 : ℤ) ^ (k + 1) ≤ b := fun hA => hc ⟨hA, hklt⟩
      omega

/-- Decimal rendering of a one-digit number is that single digit. -/
theorem natToStr_digit (m : ℕ) (hm : m < 10) :
    natToStr m = ⟨[Char.ofNat (48 + m)]⟩ := by
  unfold natToStr natDigitsAux
  rw [if_pos hm]

/-- The character of a decimal digit passes the digit test. -/
theorem isDigitChar_ofNat (m : ℕ) (hm : m < 10) :
    isDigitChar (Char.ofNat (48 + m)) = true := by
  interval_cases m <;> decide

/-- The one-decimal rendering always ends in a dot followed by exactly one
digit. -/
theorem oneDecimalShape_oneDecimalStr (b : ℤ) (k : ℕ) :
    oneDecimalShape (oneDecimalStr b k) = true := by
  set m := halfEvenDiv (10 * b.toNat) (1000 ^ k) with hmdef
  have hm : m % 10 < 10 := Nat.mod_lt _ (by norm_num)
  have hstr : oneDecimalStr b k = natToStr (m / 10) ++ "." ++ natToStr (m % 10) := rfl
  rw [hstr, natToStr_digit _ hm]
  have hdata : (natToStr (m / 10) ++ "." ++
        (⟨[Char.ofNat (48 + m % 10)]⟩ : String)).toList
      = (natToStr (m / 10)).toList ++ ['.'] ++ [Char.ofNat (48 + m % 10)] := by
    show ((natToStr (m / 10) ++ "." ++ (⟨[Char.ofNat (48 + m % 10)]⟩ : String)) : String).data
      = (natToStr (m / 10)).data ++ ['.'] ++ [Char.ofNat (48 + m % 10)]
    rw [String.data_append, String.data_append]
  unfold oneDecimalShape
  rw [hdata, List.reverse_append, List.reverse_append]
  simp only [List.reverse_cons, List.reverse_nil, List.nil_append, List.cons_append,
    List.singleton_append]
  exact isDigitChar_ofNat _ hm

/-- C10 (confirmed).  For every byte count `b`: below 1000 the result is
the integer itself followed by `Bytes`; from 1000 on, writing `k` for the
unit index chosen by the loop (1 = KB … 5 = PB), `1000^k ≤ b` — the scaled
value `b / 1000^k` is at least 1, and `k` is the smallest such index — and
below the final unit `b < 1000^(k+1)` — the scaled value is below 1000,
the PB tier alone being allowed to exceed it — and the result is the
scaled value rendered with exactly one decimal digit, followed by the unit
name. -/
theorem c10_format_size :
    ∀ b : ℕ,
      ((b : ℤ) < 1000 →
        sizeLoop 5 (b : ℤ) 0 = 0 ∧ format_size (b : ℤ) = natToStr b ++ " Bytes") ∧
      (1000 ≤ (b : ℤ) →
        1 ≤ sizeLoop 5 (b : ℤ) 0 ∧ sizeLoop 5 (b : ℤ) 0 ≤ 5 ∧
        (1000 : ℤ) ^ sizeLoop 5 (b : ℤ) 0 ≤ (b : ℤ) ∧
        (sizeLoop 5 (b : ℤ) 0 < 5 → (b : ℤ) < 1000 ^ (sizeLoop 5 (b : ℤ) 0 + 1)) ∧
        format_size (b : ℤ) =
          oneDecimalStr (b : ℤ) (sizeLoop 5 (b : ℤ) 0) ++ " " ++
            sizeUnits.getD (sizeLoop 5 (b : ℤ) 0) "" ∧
        oneDecimalShape (oneDecimalStr (b : ℤ) (sizeLoop 5 (b : ℤ) 0)) = true) := by
  intro b
  obtain ⟨h1, h2, h3, h4⟩ := sizeLoop_spec 5 (b : ℤ) 0 rfl
  constructor
  · intro hb
    have hr0 : sizeLoop 5 (b : ℤ) 0 = 0 := by
      rcases h3 with heq | hle
      · exact heq
      · by_contra hne
        have hge : 1 ≤ sizeLoop 5 (b : ℤ) 0 := by omega
        have : (1000 : ℤ) ^ 1 ≤ (1000 : ℤ) ^ sizeLoop 5 (b : ℤ) 0 :=
          pow_le_pow_right₀ (by norm_num) hge
        omega
    refine ⟨hr0, ?_⟩
    unfold format_size
    rw [hr0]
    simp only [if_true]
    have hnn : ¬ ((b : ℤ) < 0) := by omega
    unfold intToStr
    rw [if_neg hnn, Int.toNat_natCast, String.append_assoc]
    rfl
  · intro hb
    have hr1 : 1 ≤ sizeLoop 5 (b : ℤ) 0 := by
      by_contra hne
      have hr0 : sizeLoop 5 (b : ℤ) 0 = 0 := by omega
      have := h4 (by omega)
      rw [hr0] at this
      omega
    have hpow : (1000 : ℤ) ^ sizeLoop 5 (b : ℤ) 0 ≤ (b : ℤ) := by
      rcases h3 with heq | hle
      · omega
      · exact hle
    refine ⟨hr1, h2, hpow, h4, ?_, oneDecimalShape_oneDecimalStr _ _⟩
    unfold format_size
    rw [if_neg (by omega)]

/-- Witness for C10: both range hypotheses discharged at concrete byte
counts (999 renders as an integer; 1234 lands in the KB tier). -/
theorem c10_format_size_witness :
    format_size (999 : ℤ) = natToStr 999 ++ " Bytes" ∧
    1 ≤ sizeLoop 5 (1234 : ℤ) 0 ∧
    format_size (1234 : ℤ) =
      oneDecimalStr (1234 : ℤ) (sizeLoop 5 (1234 : ℤ) 0) ++ " " ++
        sizeUnits.getD (sizeLoop 5 (1234 : ℤ) 0) "" :=
  ⟨((c10_format_size 999).1 (by norm_num)).2,
   ((c10_format_size 1234).2 (by norm_num)).1,
   ((c10_format_size 1234).2 (by norm_num)).2.2.2.2.1⟩

end SshGui

